import Mathlib

/-!
Shallow embedding of the CBNU chatbot resource store (src/cbnuchatbot.py).

The persistent state is the SQLite table
  resources(id AUTOINCREMENT, keyword TEXT UNIQUE NOT NULL, url TEXT NOT NULL,
            count INTEGER DEFAULT 0, tag TEXT DEFAULT '')
modelled as a list of records in rowid (insertion) order.  Each Python
function touching the table is translated to a pure function on that list.
-/

namespace Cbnu

/-- One row of the `resources` table (the `id` column is represented by the
position in the list, which is how the program uses it: never read, only an
insertion-order key). -/
structure Resource where
  keyword : String
  url : String
  count : Nat
  tag : String
deriving DecidableEq, Repr

abbrev Store := List Resource

/-- SQLite folds ASCII letters (and only ASCII letters) to a common case when
evaluating `LIKE`; we fold the code point of `a`-`z` to the upper-case one. -/
def foldA (c : Char) : Nat :=
  if 97 ≤ c.toNat ∧ c.toNat ≤ 122 then c.toNat - 32 else c.toNat

/-- SQLite `LIKE` pattern matching: `%` matches any (possibly empty) sequence,
`_` matches any single character, any other pattern character matches a text
character equal to it up to ASCII case.  Structural recursion on the pattern:
a `%` tries every suffix of the text. -/
def likeMatch : List Char → List Char → Bool
  | [], s => s.isEmpty
  | p :: ps, s =>
    if p = '%' then s.tails.any fun t => likeMatch ps t
    else
      match s with
      | [] => false
      | c :: t => (if p = '_' then true else foldA p == foldA c) && likeMatch ps t

/-- The pattern the code builds with `f"%{query}%"`. -/
def sqlPat (q : String) : List Char := '%' :: (q.data ++ ['%'])

/-- `initial_data`: the seed list from the source. -/
def initial_data : List (String × String) :=
  [("장학금",       "https://www.cbnu.ac.kr/www/contents.do?key=492"),
   ("학사일정",     "https://www.cbnu.ac.kr/www/selectWebSchdulList.do?key=455&schdulSeNo=1"),
   ("수강신청",     "https://eisa.cbnu.ac.kr/"),
   ("도서관",       "https://cbnul.chungbuk.ac.kr/"),
   ("셔틀버스",     "https://www.cbnu.ac.kr/www/contents.do?key=648"),
   ("기숙사",       "https://cia.cbnu.ac.kr/"),
   ("취업지원",     "https://hrd.cbnu.ac.kr/"),
   ("등록금",       "https://www.cbnu.ac.kr/www/contents.do?key=483"),
   ("캠퍼스맵",     "https://www.cbnu.ac.kr/www/contents.do?key=4"),
   ("씨앗시스템",   "https://seet.cbnu.ac.kr/"),
   ("LMS",         "https://lms.cbnu.ac.kr/"),
   ("마이페이지",   "https://portal.cbnu.ac.kr/")]

/-- `INSERT OR IGNORE INTO resources(keyword, url) VALUES (?, ?)`: the row is
appended with the column defaults `count = 0`, `tag = ''` unless the UNIQUE
constraint on `keyword` (BINARY collation, i.e. exact string equality) is
violated, in which case the statement is ignored. -/
def insertOrIgnore (s : Store) (p : String × String) : Store :=
  if s.any fun r => r.keyword = p.1 then s
  else s ++ [{ keyword := p.1, url := p.2, count := 0, tag := "" }]

/-- `init_db()`: drops the whole table (discarding the prior state), recreates
it empty, then runs `INSERT OR IGNORE` for every seed pair in order.  The seed
list is a parameter so that the reseed contract can be stated for any seed;
the program always passes `initial_data`. -/
def init_db (seed : List (String × String)) (_prior : Store) : Store :=
  seed.foldl insertOrIgnore []

/-- `search_resources(query)`:
`SELECT keyword, url FROM resources WHERE keyword LIKE '%query%'`. -/
def search_resources (q : String) (s : Store) : List (String × String) :=
  (s.filter fun r => likeMatch (sqlPat q) r.keyword.data).map fun r => (r.keyword, r.url)

/-- `update_count(keyword)`:
`UPDATE resources SET count = count + 1 WHERE keyword = ?` (exact equality). -/
def update_count (kw : String) (s : Store) : Store :=
  s.map fun r => if r.keyword = kw then { r with count := r.count + 1 } else r

/-- The per-match loop both front ends run after a successful search:
`for kw, url in matches: update_count(kw)`. -/
def incAll (kws : List String) (s : Store) : Store :=
  kws.foldl (fun acc kw => update_count kw acc) s

/-- The store after one full `search(q)` event (substring query followed by
one `update_count` per returned match), as performed by `main`/`gui_search`. -/
def doSearch (q : String) (s : Store) : Store :=
  incAll ((search_resources q s).map Prod.fst) s

/-- `add_resource()` after the two `input()` calls:
`INSERT INTO resources(keyword, url) VALUES(?, ?)`; `sqlite3.IntegrityError`
(UNIQUE on `keyword`) is caught and the store is left unchanged.  The `Bool`
is `true` on the success message, `false` on the duplicate message. -/
def add_resource (kw url : String) (s : Store) : Store × Bool :=
  if s.any fun r => r.keyword = kw then (s, false)
  else (s ++ [{ keyword := kw, url := url, count := 0, tag := "" }], true)

/-- `tag_resource()` after the two `input()` calls:
`UPDATE resources SET tag = ? WHERE keyword = ?`. -/
def tag_resource (kw tg : String) (s : Store) : Store :=
  s.map fun r => if r.keyword = kw then { r with tag := tg } else r

/-- `show_by_tag()` query: `SELECT keyword, url FROM resources WHERE tag = ?`. -/
def show_by_tag (tg : String) (s : Store) : List (String × String) :=
  (s.filter fun r => r.tag = tg).map fun r => (r.keyword, r.url)

/-- `SELECT keyword, count FROM resources ORDER BY count DESC LIMIT n`:
stable descending sort on `count` (ties keep rowid order, SQLite's behaviour
for this single-key sort), truncated to `n` rows.  The code's `top_keywords`
runs it with `n = 5`; the store contract states it for any `n`. -/
def topByCount (n : Nat) (s : Store) : List (String × Nat) :=
  ((s.insertionSort fun a b => b.count ≤ a.count).take n).map fun r => (r.keyword, r.count)

/-- `search_resources` with the surrounding `try/except` made explicit:
when the SELECT raises (`dbFail = true`) the handler prints a message and
returns `rows = []`. -/
def search_resourcesE (dbFail : Bool) (q : String) (s : Store) : List (String × String) :=
  if dbFail then [] else search_resources q s

/-- The query part of `top_keywords()` with its `try/except` made explicit:
on a storage failure the handler prints a message and leaves `rows = []`,
after which the function prints the same "no data" message as for an empty
table. -/
def top_keywordsE (dbFail : Bool) (s : Store) : List (String × Nat) :=
  if dbFail then [] else topByCount 5 s

/-- Python `str.strip()` whitespace test, restricted to the ASCII whitespace
characters (space, tab, newline, carriage return, vertical tab, form feed). -/
def isPySpace (c : Char) : Bool :=
  c = ' ' || c = '\t' || c = '\n' || c = '\x0d' || c = '\x0b' || c = '\x0c'

/-- Python `str.strip()`: drop leading and trailing whitespace. -/
def pyStrip (s : String) : String :=
  ⟨((s.data.dropWhile isPySpace).reverse.dropWhile isPySpace).reverse⟩

/-- The `gui_search` handler: strips the entry text, returns immediately on an
empty stripped query, otherwise searches and increments each match's count.
Result: the matches shown, and the store afterwards. -/
def gui_search (raw : String) (s : Store) : List (String × String) × Store :=
  let q := pyStrip raw
  if q = "" then ([], s)
  else (search_resources q s, doSearch q s)

/-!
`suggest_keywords` defers to `difflib.get_close_matches(query, all_keys, n=3,
cutoff=0.6)`.  The similarity is `SequenceMatcher(None, x, word).ratio()`:
twice the total size of the matching blocks over the sum of the lengths,
where the matching blocks come from recursively taking the longest matching
run (`find_longest_match`).  The sequences here are far below difflib's
200-element `autojunk` threshold, so the junk machinery is inert and
`find_longest_match` is exactly its dynamic program.
-/

/-- `find_longest_match(alo, ahi, blo, bhi)` for sequences `a` and `b`:
row-by-row dynamic program; `j2len j` is the length of the matching run
ending at the previous row and column `j` (0 when absent, like the Python
dict default); the best block is updated only on strictly larger size, so
the earliest maximal block wins.  Returns `(besti, bestj, bestsize)`. -/
def flm (a b : List Char) (alo ahi blo bhi : Nat) : Nat × Nat × Nat :=
  ((List.range' alo (ahi - alo)).foldl
    (fun (st : (Nat → Nat) × (Nat × Nat × Nat)) i =>
      let ai := a.getD i (Char.ofNat 0)
      (List.range' blo (bhi - blo)).foldl
        (fun (st2 : (Nat → Nat) × (Nat × Nat × Nat)) j =>
          if b.getD j (Char.ofNat 0) == ai then
            let k := (if j = 0 then 0 else st.1 (j - 1)) + 1
            ((fun j' => if j' = j then k else st2.1 j'),
             if st2.2.2.2 < k then (i + 1 - k, j + 1 - k, k) else st2.2)
          else st2)
        ((fun _ => 0), st.2))
    ((fun _ => 0), (alo, blo, 0))).2

/-- Total size of the matching blocks of `get_matching_blocks` on the window
`[alo, ahi) × [blo, bhi)`: the longest match splits the window in two and the
recursion continues on both sides.  (The Python queue prunes windows that are
empty on either axis; such windows contribute 0 here, so the sum agrees.)
The fuel only serves termination: each recursive window is strictly smaller,
so `(ahi - alo) + (bhi - blo) + 1` steps always suffice. -/
def matchTotal (a b : List Char) : Nat → Nat → Nat → Nat → Nat → Nat
  | 0, _, _, _, _ => 0
  | fuel + 1, alo, ahi, blo, bhi =>
    let m := flm a b alo ahi blo bhi
    if m.2.2 = 0 then 0
    else
      matchTotal a b fuel alo m.1 blo m.2.1 + m.2.2 +
        matchTotal a b fuel (m.1 + m.2.2) ahi (m.2.1 + m.2.2) bhi

/-- `_calculate_ratio(matches, length)`: `2 * matches / length`, and 1.0 when
both sequences are empty.  (Python computes this in floating point; the exact
rational is the idealised value, and every comparison the program makes with
it is far from the rounding boundary.) -/
def calcRatioQ (m len : Nat) : ℚ :=
  if len = 0 then 1 else mkRat (2 * m) len

/-- The cutoff `0.6` of `get_close_matches`. -/
def cutoff06 : ℚ := mkRat 3 5

/-- `SequenceMatcher(None, x, w).ratio()` (candidate first, query second, as
`get_close_matches` sets them). -/
def ratioQ (x w : String) : ℚ :=
  let a := x.data
  let b := w.data
  calcRatioQ (matchTotal a b (a.length + b.length + 1) 0 a.length 0 b.length)
    (a.length + b.length)

/-- `quick_ratio()`: counts, via a running availability map seeded with the
multiset of `w`, how many characters of `x` can be matched against `w`. -/
def quickRatioQ (x w : String) : ℚ :=
  calcRatioQ
    ((x.data.foldl
      (fun (st : (Char → Int) × Nat) c =>
        let numb := st.1 c
        ((fun d => if d = c then numb - 1 else st.1 d),
         if 0 < numb then st.2 + 1 else st.2))
      ((fun c => (w.data.count c : Int)), 0)).2)
    (x.length + w.length)

/-- `real_quick_ratio()`: `2 * min(la, lb) / (la + lb)`. -/
def realQuickRatioQ (x w : String) : ℚ :=
  calcRatioQ (min x.length w.length) (x.length + w.length)

/-- Python string `<`: code-point lexicographic comparison. -/
def strLtb : List Char → List Char → Bool
  | [], [] => false
  | [], _ :: _ => true
  | _ :: _, [] => false
  | a :: as, b :: bs => if a < b then true else if b < a then false else strLtb as bs

/-- The order `heapq.nlargest` imposes on difflib's `(score, candidate)`
pairs: Python tuple comparison, so descending score first and, on equal
scores, descending (code-point lexicographic) candidate string. -/
def simGE (x y : ℚ × String) : Prop :=
  y.1 < x.1 ∨ (x.1 = y.1 ∧ strLtb x.2.data y.2.data = false)

instance : DecidableRel simGE := fun x y => by unfold simGE; infer_instance

/-- The `result` list `get_close_matches` accumulates: a `(score, candidate)`
pair for every candidate whose ratio clears the cutoff (the two quick upper
bounds are checked first, exactly as in the source). -/
def scoredOf (word : String) (poss : List String) (cutoff : ℚ) :
    List (ℚ × String) :=
  poss.filterMap fun x =>
    if cutoff ≤ realQuickRatioQ x word ∧ cutoff ≤ quickRatioQ x word ∧
        cutoff ≤ ratioQ x word then
      some (ratioQ x word, x)
    else none

/-- `difflib.get_close_matches(word, possibilities, n, cutoff)`: score the
candidates, then `nlargest(n, result)` — documented to equal
`sorted(result, reverse=True)[:n]`, a stable descending sort of the
`(score, candidate)` pairs — and strip the scores. -/
def get_close_matches (word : String) (poss : List String) (n : Nat)
    (cutoff : ℚ) : List String :=
  ((((scoredOf word poss cutoff).insertionSort simGE).take n).map Prod.snd)

/-- `suggest_keywords(query)`: reads `SELECT keyword FROM resources` and runs
`get_close_matches(query, all_keys, n=3, cutoff=0.6)`. -/
def suggest_keywords (q : String) (s : Store) : List String :=
  get_close_matches q (s.map fun r => r.keyword) 3 cutoff06

/-- The store the program actually starts from. -/
def seedStore : Store := init_db initial_data []

/-- ASCII letter, either case (the characters `LIKE` compares
case-insensitively). -/
def isAsciiLetter (c : Char) : Prop :=
  (65 ≤ c.toNat ∧ c.toNat ≤ 90) ∨ (97 ≤ c.toNat ∧ c.toNat ≤ 122)

instance (c : Char) : Decidable (isAsciiLetter c) := by
  unfold isAsciiLetter; infer_instance

instance : Inhabited Resource := ⟨⟨"", "", 0, ""⟩⟩

/-- A seed pair as the row `INSERT OR IGNORE` creates from it. -/
def seedRec (p : String × String) : Resource :=
  { keyword := p.1, url := p.2, count := 0, tag := "" }

/-- The spec side of the reseed claim: the seed pairs with every keyword
dropped after its first occurrence (`seen` accumulates keywords already
taken; the claim instantiates it with `[]`). -/
def specDedupSeed : List (String × String) → List String → List (String × String)
  | [], _ => []
  | p :: rest, seen =>
    if p.1 ∈ seen then specDedupSeed rest seen
    else p :: specDedupSeed rest (p.1 :: seen)

/-!  ## Supporting lemmas  -/

theorem pyStrip_eq_empty (raw : String) (h : ∀ c ∈ raw.data, isPySpace c = true) :
    pyStrip raw = "" := by
  unfold pyStrip
  rw [List.dropWhile_eq_nil_iff.mpr h]
  rfl

theorem specDedupSeed_congr :
    ∀ (l : List (String × String)) (s1 s2 : List String),
      (∀ x, x ∈ s1 ↔ x ∈ s2) → specDedupSeed l s1 = specDedupSeed l s2 := by
  intro l
  induction l with
  | nil => intro s1 s2 _; rfl
  | cons p rest ih =>
    intro s1 s2 h
    unfold specDedupSeed
    by_cases hm : p.1 ∈ s1
    · rw [if_pos hm, if_pos ((h p.1).mp hm), ih s1 s2 h]
    · rw [if_neg hm, if_neg (fun hc => hm ((h p.1).mpr hc)),
        ih (p.1 :: s1) (p.1 :: s2) (by intro x; simp [h x])]

theorem specDedupSeed_cons (p : String × String) (rest : List (String × String))
    (seen : List String) :
    specDedupSeed (p :: rest) seen =
      if p.1 ∈ seen then specDedupSeed rest seen
      else p :: specDedupSeed rest (p.1 :: seen) := rfl

theorem foldl_insertOrIgnore :
    ∀ (l : List (String × String)) (acc : Store),
      l.foldl insertOrIgnore acc =
        acc ++ (specDedupSeed l (acc.map fun r => r.keyword)).map seedRec := by
  intro l
  induction l with
  | nil => intro acc; simp [specDedupSeed]
  | cons p rest ih =>
    intro acc
    rw [List.foldl_cons]
    by_cases hm : p.1 ∈ acc.map fun r => r.keyword
    · have hany : (acc.any fun r => r.keyword = p.1) = true := by
        rcases List.mem_map.mp hm with ⟨r, hr, hk⟩
        exact List.any_eq_true.mpr ⟨r, hr, by simp [hk]⟩
      have hins : insertOrIgnore acc p = acc := by
        unfold insertOrIgnore; rw [if_pos hany]
      rw [hins, ih acc, specDedupSeed_cons, if_pos hm]
    · have hany : (acc.any fun r => r.keyword = p.1) = false := by
        rw [List.any_eq_false]
        intro r hr
        simp only [decide_eq_true_eq]
        intro hk
        exact hm (List.mem_map.mpr ⟨r, hr, hk⟩)
      have hins : insertOrIgnore acc p = acc ++ [seedRec p] := by
        unfold insertOrIgnore; rw [hany]; rfl
      rw [hins, ih (acc ++ [seedRec p]), specDedupSeed_cons, if_neg hm]
      have hseen : (acc ++ [seedRec p]).map (fun r => r.keyword) =
          (acc.map fun r => r.keyword) ++ [p.1] := by
        simp [seedRec]
      have hmemiff : ∀ x, x ∈ (acc.map fun r => r.keyword) ++ [p.1] ↔
          x ∈ p.1 :: acc.map fun r => r.keyword := by
        intro x
        simp only [List.mem_append, List.mem_cons, List.not_mem_nil, or_false]
        tauto
      rw [hseen, specDedupSeed_congr rest ((acc.map fun r => r.keyword) ++ [p.1])
        (p.1 :: acc.map fun r => r.keyword) hmemiff]
      simp [List.append_assoc]

/-- `update_count` over a list of keywords bumps each record's count by the
number of occurrences of its keyword in the list. -/
theorem incAll_eq (kws : List String) (s : Store) :
    incAll kws s = s.map fun r => { r with count := r.count + kws.count r.keyword } := by
  induction kws generalizing s with
  | nil =>
    simp only [incAll, List.foldl_nil, List.count_nil, Nat.add_zero]
    conv_lhs => rw [← List.map_id s]
    exact List.map_congr_left fun r _ => rfl
  | cons k ks ih =>
    have h1 : incAll (k :: ks) s = incAll ks (update_count k s) := rfl
    rw [h1, ih, update_count, List.map_map]
    refine List.map_congr_left fun r _ => ?_
    by_cases hk : r.keyword = k <;>
      (simp [Function.comp, hk, List.count_cons]; try omega)

/-- In a store with pairwise distinct keywords, the list of keywords of the
records passing a keyword-determined filter counts each present keyword once
if it passes and zero times otherwise. -/
theorem count_keys_filter (p : Resource → Bool) (pb : String → Bool)
    (hp : ∀ x, p x = pb x.keyword) :
    ∀ (s : Store), ((s.map fun r => r.keyword).Nodup) → ∀ r ∈ s,
      (((s.filter p).map fun x => x.keyword).count r.keyword) =
        if pb r.keyword then 1 else 0 := by
  intro s
  induction s with
  | nil => intro _ r hr; cases hr
  | cons h t ih =>
    intro hnd r hr
    rw [List.map_cons, List.nodup_cons] at hnd
    have hmemt : ∀ x ∈ t, x.keyword ≠ h.keyword := by
      intro x hx he
      exact hnd.1 (he ▸ List.mem_map.mpr ⟨x, hx, rfl⟩)
    rcases List.mem_cons.mp hr with hrh | hrt
    · subst hrh
      have hzero : ((t.filter p).map fun x => x.keyword).count r.keyword = 0 := by
        rw [List.count_eq_zero]
        intro hc
        rcases List.mem_map.mp hc with ⟨x, hx, hxe⟩
        exact hmemt x (List.mem_of_mem_filter hx) hxe
      by_cases hpb : pb r.keyword
      · rw [List.filter_cons_of_pos (by rw [hp]; simpa using hpb), List.map_cons,
          List.count_cons_self, hzero, if_pos hpb]
      · rw [List.filter_cons_of_neg (by rw [hp]; simpa using hpb), hzero, if_neg hpb]
    · have hne : r.keyword ≠ h.keyword := hmemt r hrt
      by_cases hpb : pb h.keyword
      · rw [List.filter_cons_of_pos (by rw [hp]; simpa using hpb), List.map_cons,
          List.count_cons_of_ne hne]
        exact ih hnd.2 r hrt
      · rw [List.filter_cons_of_neg (by rw [hp]; simpa using hpb)]
        exact ih hnd.2 r hrt

/-- In a store with pairwise distinct keywords, a record is returned by
`search_resources q` exactly when its keyword matches the `LIKE` pattern. -/
theorem pair_mem_search_iff (q : String) (s : Store)
    (hnd : (s.map fun r => r.keyword).Nodup) (r : Resource) (hr : r ∈ s) :
    ((r.keyword, r.url) ∈ search_resources q s) ↔
      likeMatch (sqlPat q) r.keyword.data = true := by
  constructor
  · intro hmem
    unfold search_resources at hmem
    rcases List.mem_map.mp hmem with ⟨x, hx, heq⟩
    have hkw : x.keyword = r.keyword := congrArg Prod.fst heq
    have hxr : x = r :=
      List.inj_on_of_nodup_map hnd (List.mem_of_mem_filter hx) hr hkw
    subst hxr
    exact (List.mem_filter.mp hx).2
  · intro hlike
    exact List.mem_map.mpr ⟨r, List.mem_filter.mpr ⟨hr, hlike⟩, rfl⟩

/-- In a store with pairwise distinct keywords, filtering for one present
keyword returns exactly that record. -/
theorem filter_keyword_singleton :
    ∀ (s : Store), ((s.map fun r => r.keyword).Nodup) → ∀ r ∈ s,
      (s.filter fun x => x.keyword = r.keyword) = [r] := by
  intro s
  induction s with
  | nil => intro _ r hr; cases hr
  | cons h t ih =>
    intro hnd r hr
    rw [List.map_cons, List.nodup_cons] at hnd
    have hmemt : ∀ x ∈ t, x.keyword ≠ h.keyword := by
      intro x hx he
      exact hnd.1 (he ▸ List.mem_map.mpr ⟨x, hx, rfl⟩)
    rcases List.mem_cons.mp hr with hrh | hrt
    · subst hrh
      rw [List.filter_cons_of_pos (by simp)]
      rw [List.filter_eq_nil_iff.mpr fun x hx => by simpa using hmemt x hx]
    · rw [List.filter_cons_of_neg (by simpa using fun he => hmemt r hrt he.symm)]
      exact ih hnd.2 r hrt

/-!  ## The LIKE pattern versus plain substring containment  -/

theorem likeMatch_percent (ps s : List Char) :
    likeMatch ('%' :: ps) s = s.tails.any fun t => likeMatch ps t := by
  simp [likeMatch]

theorem likeMatch_cons_nil (p : Char) (ps : List Char) (hp : p ≠ '%') :
    likeMatch (p :: ps) [] = false := by
  simp [likeMatch, hp]

theorem likeMatch_cons_cons (p : Char) (ps : List Char) (hp : p ≠ '%') (c : Char)
    (t : List Char) :
    likeMatch (p :: ps) (c :: t) =
      ((if p = '_' then true else foldA p == foldA c) && likeMatch ps t) := by
  simp [likeMatch, hp]

/-- A pattern character that is no ASCII letter case-folds to itself, so it
matches exactly itself. -/
theorem foldA_eq_iff (p c : Char) (hp : ¬ isAsciiLetter p) :
    foldA p = foldA c ↔ p = c := by
  have hpl : ¬(97 ≤ p.toNat ∧ p.toNat ≤ 122) := fun h => hp (Or.inr h)
  have hpu : ¬(65 ≤ p.toNat ∧ p.toNat ≤ 90) := fun h => hp (Or.inl h)
  have hfp : foldA p = p.toNat := by unfold foldA; rw [if_neg hpl]
  constructor
  · intro h
    by_cases hcl : 97 ≤ c.toNat ∧ c.toNat ≤ 122
    · have hfc : foldA c = c.toNat - 32 := by unfold foldA; rw [if_pos hcl]
      rw [hfp, hfc] at h
      omega
    · have hfc : foldA c = c.toNat := by unfold foldA; rw [if_neg hcl]
      rw [hfp, hfc] at h
      exact Char.eq_of_val_eq (UInt32.ext h)
  · rintro rfl; rfl

/-- Matching the literal pattern `q ++ ['%']` (with `q` free of wildcards and
ASCII letters) means having `q` as a prefix. -/
theorem likeMatch_lit_append :
    ∀ (q : List Char), (∀ c ∈ q, c ≠ '%' ∧ c ≠ '_' ∧ ¬ isAsciiLetter c) →
      ∀ s, (likeMatch (q ++ ['%']) s = true ↔ q <+: s) := by
  intro q
  induction q with
  | nil =>
    intro _ s
    simp only [List.nil_append]
    constructor
    · intro _; exact List.nil_prefix
    · intro _
      rw [likeMatch_percent, List.any_eq_true]
      exact ⟨[], (List.mem_tails [] s).mpr (List.nil_suffix ..), rfl⟩
  | cons p q ih =>
    intro hq s
    have hp := hq p (List.mem_cons_self p q)
    have hq' : ∀ c ∈ q, c ≠ '%' ∧ c ≠ '_' ∧ ¬ isAsciiLetter c :=
      fun c hc => hq c (List.mem_cons_of_mem _ hc)
    cases s with
    | nil =>
      rw [List.cons_append, likeMatch_cons_nil p _ hp.1]
      simp [List.prefix_nil]
    | cons c t =>
      rw [List.cons_append, likeMatch_cons_cons p _ hp.1, if_neg hp.2.1,
        Bool.and_eq_true, beq_iff_eq, List.cons_prefix_cons,
        foldA_eq_iff p c hp.2.2, ih hq' t]

/-- For a query with no `LIKE` wildcards and no ASCII letters, matching the
pattern `'%' ++ q ++ '%'` is exactly substring containment of `q`. -/
theorem likeMatch_pat_iff_infix (q : String)
    (hq : ∀ c ∈ q.data, c ≠ '%' ∧ c ≠ '_' ∧ ¬ isAsciiLetter c) (s : List Char) :
    likeMatch (sqlPat q) s = true ↔ q.data <:+: s := by
  unfold sqlPat
  rw [likeMatch_percent, List.any_eq_true]
  constructor
  · rintro ⟨t, ht, hlm⟩
    obtain ⟨u, hu⟩ := (List.mem_tails t s).mp ht
    obtain ⟨v, hv⟩ := (likeMatch_lit_append q.data hq t).mp hlm
    exact ⟨u, v, by rw [List.append_assoc, hv, hu]⟩
  · rintro ⟨u, v, huv⟩
    refine ⟨q.data ++ v, (List.mem_tails _ s).mpr ⟨u, ?_⟩,
      (likeMatch_lit_append q.data hq _).mpr ⟨v, rfl⟩⟩
    rw [← huv, List.append_assoc]

/-!  ## Claim C2 — substring search semantics  -/

/-- C2, counterexample: the seed row ("LMS", …) is returned for the query
"lms" although "lms" is not a case-sensitive substring of "LMS" — SQLite's
`LIKE` compares ASCII letters case-insensitively, so the claimed
"case-sensitive substring" characterisation of the search is false. -/
theorem like_not_case_sensitive :
    ("LMS", "https://lms.cbnu.ac.kr/") ∈ search_resources "lms" seedStore ∧
    ¬ ("lms".data <:+: "LMS".data) := by
  decide

/-- C2, amended: with pairwise distinct keywords, a record's (keyword,
locator) pair is returned by `search_resources q` exactly when the keyword
matches the SQLite pattern `%q%` — ASCII-case-insensitively and with `%`/`_`
of the query acting as wildcards; for a query containing no wildcard
character and no ASCII letter this is exactly case-sensitive substring
containment. -/
theorem search_membership_like (q : String) (s : Store)
    (hnd : (s.map fun r => r.keyword).Nodup) (r : Resource) (hr : r ∈ s) :
    ((r.keyword, r.url) ∈ search_resources q s ↔
      likeMatch (sqlPat q) r.keyword.data = true) ∧
    ((∀ c ∈ q.data, c ≠ '%' ∧ c ≠ '_' ∧ ¬ isAsciiLetter c) →
      ((r.keyword, r.url) ∈ search_resources q s ↔ q.data <:+: r.keyword.data)) := by
  refine ⟨pair_mem_search_iff q s hnd r hr, fun hq => ?_⟩
  rw [pair_mem_search_iff q s hnd r hr, likeMatch_pat_iff_infix q hq]

theorem search_membership_like_witness :
    ("도서관", "https://cbnul.chungbuk.ac.kr/") ∈ search_resources "도서" seedStore ↔
      "도서".data <:+: "도서관".data :=
  (search_membership_like "도서" seedStore (by decide)
    ⟨"도서관", "https://cbnul.chungbuk.ac.kr/", 0, ""⟩ (by decide)).2 (by decide)

/-!  ## Claim C3 — one increment per matched keyword  -/

/-- C3: with pairwise distinct keywords (the UNIQUE column guarantees this),
a full `search(q)` event leaves the store with every matched record's count
bumped by exactly 1 — once per search call, even when several keywords match
— and every unmatched record untouched; and a record is matched exactly when
its keyword matches the `LIKE` pattern of `q`. -/
theorem search_increments_matched_once (q : String) (s : Store)
    (hnd : (s.map fun r => r.keyword).Nodup) :
    doSearch q s = (s.map fun r =>
      if likeMatch (sqlPat q) r.keyword.data then { r with count := r.count + 1 }
      else r) ∧
    ∀ r ∈ s, ((r.keyword, r.url) ∈ search_resources q s ↔
      likeMatch (sqlPat q) r.keyword.data = true) := by
  refine ⟨?_, fun r hr => pair_mem_search_iff q s hnd r hr⟩
  unfold doSearch
  have h1 : (search_resources q s).map Prod.fst =
      ((s.filter fun r => likeMatch (sqlPat q) r.keyword.data).map fun r => r.keyword) := by
    unfold search_resources
    rw [List.map_map]
    rfl
  rw [h1, incAll_eq]
  refine List.map_congr_left fun r hr => ?_
  rw [count_keys_filter (fun r => likeMatch (sqlPat q) r.keyword.data)
    (fun kw => likeMatch (sqlPat q) kw.data) (fun _ => rfl) s hnd r hr]
  by_cases hm : likeMatch (sqlPat q) r.keyword.data
  · rw [if_pos hm, if_pos hm]
  · rw [if_neg hm, if_neg hm]
    simp

theorem search_increments_matched_once_witness :
    doSearch "도서" seedStore = (seedStore.map fun r =>
      if likeMatch (sqlPat "도서") r.keyword.data then { r with count := r.count + 1 }
      else r) :=
  (search_increments_matched_once "도서" seedStore (by decide)).1

/-!  ## Claim C9 — tag round-trip  -/

/-- C9: on a store with pairwise distinct keywords that contains a 기숙사
record, where only a 기숙사-keyed record may carry the tag 주거, tagging
기숙사 with 주거 and then querying that tag returns exactly the pair
(기숙사, its locator); and querying any tag carried by no record returns
the empty sequence. -/
theorem tag_roundtrip (s : Store) (r : Resource)
    (hnd : (s.map fun r => r.keyword).Nodup)
    (hr : r ∈ s) (hk : r.keyword = "기숙사")
    (hother : ∀ x ∈ s, x.tag = "주거" → x.keyword = "기숙사") :
    show_by_tag "주거" (tag_resource "기숙사" "주거" s) = [("기숙사", r.url)] ∧
    ∀ (tg : String) (s' : Store), (∀ x ∈ s', x.tag ≠ tg) → show_by_tag tg s' = [] := by
  constructor
  · unfold show_by_tag tag_resource
    rw [List.filter_map]
    have hpred : ∀ x ∈ s,
        ((fun y : Resource => decide (y.tag = "주거")) ∘
          (fun y : Resource =>
            if y.keyword = "기숙사" then { y with tag := "주거" } else y)) x =
          decide (x.keyword = "기숙사") := by
      intro x hx
      by_cases hxk : x.keyword = "기숙사"
      · simp [Function.comp, hxk]
      · by_cases hxt : x.tag = "주거"
        · exact absurd (hother x hx hxt) hxk
        · simp [Function.comp, hxk, hxt]
    rw [List.filter_congr hpred]
    have : (s.filter fun x => decide (x.keyword = "기숙사")) = [r] := by
      have h2 := filter_keyword_singleton s hnd r hr
      rw [hk] at h2
      exact h2
    rw [this, List.map_cons, List.map_nil, if_pos hk, hk]
    rfl
  · intro tg s' h
    unfold show_by_tag
    rw [List.filter_eq_nil_iff.mpr fun x hx => by simpa using h x hx]
    rfl

theorem tag_roundtrip_witness :
    show_by_tag "주거" (tag_resource "기숙사" "주거" seedStore) =
      [("기숙사", "https://cia.cbnu.ac.kr/")] ∧
    show_by_tag "없음" seedStore = [] :=
  ⟨(tag_roundtrip seedStore ⟨"기숙사", "https://cia.cbnu.ac.kr/", 0, ""⟩
      (by decide) (by decide) rfl (by decide)).1,
   (tag_roundtrip seedStore ⟨"기숙사", "https://cia.cbnu.ac.kr/", 0, ""⟩
      (by decide) (by decide) rfl (by decide)).2 "없음" seedStore (by decide)⟩

/-!  ## Order facts for the suggestion ranking  -/

theorem strLtb_asymm :
    ∀ (a b : List Char), strLtb a b = true → strLtb b a = false := by
  intro a
  induction a with
  | nil =>
    intro b h
    cases b with
    | nil => simp [strLtb] at h
    | cons y bs => simp [strLtb]
  | cons x as ih =>
    intro b h
    cases b with
    | nil => simp [strLtb] at h
    | cons y bs =>
      by_cases hxy : x < y
      · rw [strLtb, if_neg (lt_asymm hxy), if_pos hxy]
      · rw [strLtb, if_neg hxy] at h
        by_cases hyx : y < x
        · rw [if_pos hyx] at h
          cases h
        · rw [if_neg hyx] at h
          rw [strLtb, if_neg hyx, if_neg hxy]
          exact ih bs h

theorem strLtb_false_trans :
    ∀ (a b c : List Char), strLtb a b = false → strLtb b c = false →
      strLtb a c = false := by
  intro a
  induction a with
  | nil =>
    intro b c h1 h2
    cases b with
    | nil => exact h2
    | cons y bs => simp [strLtb] at h1
  | cons x as ih =>
    intro b c h1 h2
    cases b with
    | nil =>
      cases c with
      | nil => simp [strLtb]
      | cons z cs => simp [strLtb] at h2
    | cons y bs =>
      cases c with
      | nil => simp [strLtb]
      | cons z cs =>
        by_cases hxy : x < y
        · rw [strLtb, if_pos hxy] at h1
          cases h1
        · rw [strLtb, if_neg hxy] at h1
          by_cases hyz : y < z
          · rw [strLtb, if_pos hyz] at h2
            cases h2
          · rw [strLtb, if_neg hyz] at h2
            have hxz : ¬ x < z :=
              not_lt.mpr (le_trans (le_of_not_lt hyz) (le_of_not_lt hxy))
            rw [strLtb, if_neg hxz]
            by_cases hzx : z < x
            · rw [if_pos hzx]
            · rw [if_neg hzx]
              by_cases hyx : y < x
              · exact absurd (lt_of_le_of_lt (le_of_not_lt hyz) hyx) hzx
              · rw [if_neg hyx] at h1
                by_cases hzy : z < y
                · exact absurd (lt_of_lt_of_le hzy (le_of_not_lt hxy)) hzx
                · rw [if_neg hzy] at h2
                  exact ih bs cs h1 h2

theorem simGE_isTotal : IsTotal (ℚ × String) simGE := by
  constructor
  intro x y
  unfold simGE
  rcases lt_trichotomy x.1 y.1 with h | h | h
  · exact Or.inr (Or.inl h)
  · cases hb : strLtb x.2.data y.2.data
    · exact Or.inl (Or.inr ⟨h, rfl⟩)
    · exact Or.inr (Or.inr ⟨h.symm, strLtb_asymm _ _ hb⟩)
  · exact Or.inl (Or.inl h)

theorem simGE_isTrans : IsTrans (ℚ × String) simGE := by
  constructor
  intro x y z hxy hyz
  unfold simGE at hxy hyz ⊢
  rcases hxy with h1 | ⟨he1, hs1⟩
  · rcases hyz with h2 | ⟨he2, _⟩
    · exact Or.inl (lt_trans h2 h1)
    · exact Or.inl (he2 ▸ h1)
  · rcases hyz with h2 | ⟨he2, hs2⟩
    · exact Or.inl (by rw [he1]; exact h2)
    · exact Or.inr ⟨he1.trans he2, strLtb_false_trans _ _ _ hs1 hs2⟩

/-- What membership in the scored list means. -/
theorem mem_scoredOf (word : String) (poss : List String) (cutoff : ℚ)
    (p : ℚ × String) (h : p ∈ scoredOf word poss cutoff) :
    p.1 = ratioQ p.2 word ∧ cutoff ≤ p.1 ∧ p.2 ∈ poss := by
  rcases List.mem_filterMap.mp h with ⟨x, hx, hfx⟩
  by_cases hc : cutoff ≤ realQuickRatioQ x word ∧ cutoff ≤ quickRatioQ x word ∧
      cutoff ≤ ratioQ x word
  · rw [if_pos hc] at hfx
    injection hfx with hfx
    rw [← hfx]
    exact ⟨rfl, hc.2.2, hx⟩
  · rw [if_neg hc] at hfx
    cases hfx

/-!  ## Claim C6 — suggestion threshold, length, order  -/

/-- C6, counterexample: two candidates with the same similarity to the query
come back ordered by descending string comparison ("abe" before "abd"), not
by their original iteration order ("abd" before "abe") — `nlargest` compares
the `(score, candidate)` tuples, so equal scores fall through to the
candidate strings. -/
theorem suggest_tiebreak_not_input_order :
    ratioQ "abd" "abc" = ratioQ "abe" "abc" ∧
    get_close_matches "abc" ["abd", "abe"] 3 cutoff06 = ["abe", "abd"] := by
  decide

/-- C6, amended: every returned candidate has similarity at least 0.6 to the
query, at most 3 are returned in descending similarity order, and nothing is
returned when no candidate clears the threshold; but equal-similarity ties
are broken by descending string order of the candidates, not by the original
iteration order of the universe. -/
theorem suggest_threshold_len_order (q : String) (u : List String) :
    (∀ x ∈ get_close_matches q u 3 cutoff06, cutoff06 ≤ ratioQ x q) ∧
    (get_close_matches q u 3 cutoff06).length ≤ 3 ∧
    (get_close_matches q u 3 cutoff06).Pairwise
      (fun x y => ratioQ y q ≤ ratioQ x q) ∧
    ((∀ x ∈ u, ratioQ x q < cutoff06) → get_close_matches q u 3 cutoff06 = []) := by
  have hmemL : ∀ p, p ∈ ((scoredOf q u cutoff06).insertionSort simGE).take 3 →
      p ∈ scoredOf q u cutoff06 := by
    intro p hp
    exact (List.perm_insertionSort simGE (scoredOf q u cutoff06)).subset
      ((List.take_sublist 3 _).subset hp)
  refine ⟨?_, ?_, ?_, ?_⟩
  · intro x hx
    rcases List.mem_map.mp hx with ⟨p, hp, hpx⟩
    rcases mem_scoredOf q u cutoff06 p (hmemL p hp) with ⟨h1, h2, _⟩
    rw [← hpx, ← h1]
    exact h2
  · rw [show get_close_matches q u 3 cutoff06 =
      ((((scoredOf q u cutoff06).insertionSort simGE).take 3).map Prod.snd) from rfl,
      List.length_map]
    exact List.length_take_le 3 _
  · have hsorted : ((scoredOf q u cutoff06).insertionSort simGE).Pairwise simGE :=
      @List.sorted_insertionSort _ simGE _ simGE_isTotal simGE_isTrans _
    have htake : (((scoredOf q u cutoff06).insertionSort simGE).take 3).Pairwise simGE :=
      List.Pairwise.sublist (List.take_sublist 3 _) hsorted
    rw [show get_close_matches q u 3 cutoff06 =
      ((((scoredOf q u cutoff06).insertionSort simGE).take 3).map Prod.snd) from rfl,
      List.pairwise_map]
    refine List.Pairwise.imp_of_mem ?_ htake
    intro a b ha hb hab
    rcases mem_scoredOf q u cutoff06 a (hmemL a ha) with ⟨ha1, _, _⟩
    rcases mem_scoredOf q u cutoff06 b (hmemL b hb) with ⟨hb1, _, _⟩
    rw [← ha1, ← hb1]
    rcases hab with hlt | ⟨heq, _⟩
    · exact le_of_lt hlt
    · exact le_of_eq heq.symm
  · intro hall
    have hnil : scoredOf q u cutoff06 = [] := by
      apply List.filterMap_eq_nil_iff.mpr
      intro x hx
      rw [if_neg]
      rintro ⟨_, _, hc3⟩
      exact absurd hc3 (not_le.mpr (hall x hx))
    rw [show get_close_matches q u 3 cutoff06 =
      ((((scoredOf q u cutoff06).insertionSort simGE).take 3).map Prod.snd) from rfl,
      hnil]
    rfl

theorem suggest_threshold_len_order_witness :
    get_close_matches "a" ["zz"] 3 cutoff06 = [] :=
  (suggest_threshold_len_order "a" ["zz"]).2.2.2 (by decide)

/-!  ## Claim C1 — empty / whitespace-only queries  -/

/-- C1, counterexample: on the freshly seeded store (all 12 counts 0), the
core search with the empty query returns all 12 records — `LIKE '%%'` matches
every keyword — and the search event bumps every count to 1.  So
`search("")` neither returns zero matches nor leaves the counts alone. -/
theorem empty_query_matches_all :
    seedStore.map (fun r => r.count) = List.replicate 12 0 ∧
    (search_resources "" seedStore).length = 12 ∧
    (doSearch "" seedStore).map (fun r => r.count) = List.replicate 12 1 := by
  decide

/-- C1, amended: the empty-query short circuit lives in the GUI front end,
not in the core search: `gui_search` strips the entry text and returns
without querying or updating anything when the stripped text is empty, which
covers the empty and the whitespace-only inputs. -/
theorem gui_empty_query_guard (raw : String) (s : Store)
    (h : ∀ c ∈ raw.data, isPySpace c = true) :
    gui_search raw s = ([], s) := by
  unfold gui_search
  rw [pyStrip_eq_empty raw h]
  simp

theorem gui_empty_query_guard_witness :
    gui_search "   " seedStore = ([], seedStore) :=
  gui_empty_query_guard "   " seedStore (by decide)

/-!  ## Claim C4 — duplicate insert  -/

/-- C4: inserting an already-present keyword is rejected with the whole store
(hence the existing record's locator, count and tag) unchanged; inserting a
fresh keyword appends a record with count 0 and empty tag. -/
theorem insert_duplicate_rejected (kw url : String) (s : Store) :
    ((∃ r ∈ s, r.keyword = kw) → add_resource kw url s = (s, false)) ∧
    ((∀ r ∈ s, r.keyword ≠ kw) →
      add_resource kw url s =
        (s ++ [{ keyword := kw, url := url, count := 0, tag := "" }], true)) := by
  constructor
  · rintro ⟨r, hr, hk⟩
    unfold add_resource
    rw [if_pos (List.any_eq_true.mpr ⟨r, hr, by simp [hk]⟩)]
  · intro h
    unfold add_resource
    rw [if_neg]
    rw [List.any_eq_true]
    rintro ⟨r, hr, hk⟩
    exact h r hr (by simpa using hk)

theorem insert_duplicate_rejected_witness :
    add_resource "도서관" "https://dup" seedStore = (seedStore, false) ∧
    add_resource "신규키워드" "https://new" seedStore =
      (seedStore ++ [seedRec ("신규키워드", "https://new")], true) :=
  ⟨(insert_duplicate_rejected "도서관" "https://dup" seedStore).1 (by decide),
   (insert_duplicate_rejected "신규키워드" "https://new" seedStore).2 (by decide)⟩

/-!  ## Claim C5 — reseed  -/

/-- C5: `init_db` discards whatever was stored before and leaves exactly the
seed pairs deduplicated by first keyword occurrence, every record with
count 0 and empty tag; a second reseed with the same seed reproduces the
same store. -/
theorem reseed_dedup_idempotent (seed : List (String × String)) (prior prior' : Store) :
    (init_db seed prior).map (fun r => (r.keyword, r.url)) = specDedupSeed seed [] ∧
    (∀ r ∈ init_db seed prior, r.count = 0 ∧ r.tag = "") ∧
    init_db seed (init_db seed prior') = init_db seed prior := by
  have h := foldl_insertOrIgnore seed []
  refine ⟨?_, ?_, rfl⟩
  · show (seed.foldl insertOrIgnore []).map (fun r => (r.keyword, r.url)) = _
    rw [h]
    have hcomp : (fun r : Resource => (r.keyword, r.url)) ∘ seedRec = id := rfl
    simp [List.map_map, hcomp]
  · intro r hr
    have hr' : r ∈ (specDedupSeed seed []).map seedRec := by
      have : init_db seed prior = seed.foldl insertOrIgnore [] := rfl
      rw [this, h] at hr
      simpa using hr
    rcases List.mem_map.mp hr' with ⟨p, _, hpr⟩
    rw [← hpr]
    exact ⟨rfl, rfl⟩

/-!  ## Claim C7 — storage failure reporting  -/

/-- C7, counterexample: a failing statement makes `search_resources` and
`top_keywords` return exactly the value a successful run returns on an empty
store — the caller cannot tell a storage failure from an empty result. -/
theorem db_failure_empty_result :
    search_resourcesE true "도서관" seedStore = search_resourcesE false "도서관" [] ∧
    top_keywordsE true seedStore = top_keywordsE false [] := by
  decide

/-- C7, amended: the broad `except` handlers set `rows = []` after printing a
console diagnostic, so a storage failure is returned as the empty result —
the same value a successful search of a store with no matching rows (or an
empty table) produces — rather than as a distinguishable failure. -/
theorem db_failure_swallowed (q : String) (s : Store) :
    search_resourcesE true q s = [] ∧
    top_keywordsE true s = [] ∧
    search_resourcesE false q s = search_resources q s ∧
    top_keywordsE false s = topByCount 5 s :=
  ⟨rfl, rfl, rfl, rfl⟩

/-!  ## Claim C8 — ranking example  -/

/-- C8: on the seed 도서관 / 기숙사 / LMS, three searches for "LMS" and one
for "도서관" leave the counts at 3, 1 and 0, and the top-2 ranking is
[("LMS", 3), ("도서관", 1)] in that order. -/
theorem ranking_example :
    topByCount 2
      (doSearch "도서관" (doSearch "LMS" (doSearch "LMS" (doSearch "LMS"
        (init_db [("도서관", "https://a"), ("기숙사", "https://b"),
          ("LMS", "https://c")] []))))) =
      [("LMS", 3), ("도서관", 1)] := by
  decide

/-!  ## Claim C10 — frame property of update_count  -/

/-- C10: `update_count k` keeps the length of the store; positionally, every
record keeps its keyword, locator and tag, the record whose keyword is `k`
gets its count bumped by exactly 1, any record with a different keyword is
completely unchanged; and when no record has keyword `k`, the store is
unchanged. -/
theorem update_count_frame (k : String) (s : Store) :
    (update_count k s).length = s.length ∧
    (∀ i, i < s.length →
      ((update_count k s).getD i default).keyword = (s.getD i default).keyword ∧
      ((update_count k s).getD i default).url = (s.getD i default).url ∧
      ((update_count k s).getD i default).tag = (s.getD i default).tag ∧
      ((s.getD i default).keyword = k →
        ((update_count k s).getD i default).count = (s.getD i default).count + 1) ∧
      ((s.getD i default).keyword ≠ k →
        (update_count k s).getD i default = s.getD i default)) ∧
    ((∀ r ∈ s, r.keyword ≠ k) → update_count k s = s) := by
  refine ⟨List.length_map s _, ?_, ?_⟩
  · intro i hi
    have hmap : (update_count k s).getD i default =
        if (s.getD i default).keyword = k then
          { s.getD i default with count := (s.getD i default).count + 1 }
        else s.getD i default := by
      unfold update_count
      simp [List.getD_eq_getElem?_getD, List.getElem?_map, List.getElem?_eq_getElem hi]
    rw [hmap]
    by_cases hk : (s.getD i default).keyword = k
    · rw [if_pos hk]
      exact ⟨rfl, rfl, rfl, fun _ => rfl, fun hn => absurd hk hn⟩
    · rw [if_neg hk]
      exact ⟨rfl, rfl, rfl, fun he => absurd he hk, fun _ => rfl⟩
  · intro h
    unfold update_count
    conv_rhs => rw [← List.map_id s]
    exact List.map_congr_left fun r hr => by rw [if_neg (h r hr)]; rfl

theorem update_count_frame_witness :
    update_count "없는키워드" seedStore = seedStore ∧
    ((update_count "도서관" seedStore).getD 3 default).count =
      ((seedStore.getD 3 default)).count + 1 :=
  ⟨(update_count_frame "없는키워드" seedStore).2.2 (by decide),
   (((update_count_frame "도서관" seedStore).2.1 3 (by decide)).2.2.2.1 (by decide))⟩

end Cbnu
